import Mathlib

/-!
Verification of the package metadata presentation core of npmx.dev:
README URL rewriting and rendering hooks (src/server/utils/readme.ts),
the install command synthesizer modules (src/app/pages), the HTML
sanitizer policy, and the version grouper.  JavaScript string primitives
are embedded as executable functions over character lists so that all
statements can be evaluated on concrete inputs.
-/

namespace StrOps

/-- Tests whether the second list starts with the first (JavaScript
String.startsWith on character lists). -/
def lStarts : List Char → List Char → Bool
  | [], _ => true
  | _ :: _, [] => false
  | p :: ps, c :: cs => p = c && lStarts ps cs

/-- JavaScript String.startsWith. -/
def sStarts (s pat : String) : Bool := lStarts pat.data s.data

/-- Substring occurrence test on character lists (JavaScript String.includes). -/
def lContains (pat : List Char) : List Char → Bool
  | [] => pat.isEmpty
  | c :: cs => lStarts pat (c :: cs) || lContains pat cs

/-- JavaScript String.includes. -/
def sContains (s pat : String) : Bool := lContains pat.data s.data

/-- Replaces the first occurrence of pat by rep (JavaScript
String.replace with a string pattern replaces only the first match). -/
def lReplaceFirst (pat rep : List Char) : List Char → List Char
  | [] => if lStarts pat [] then rep else []
  | c :: cs => if lStarts pat (c :: cs) then rep ++ (c :: cs).drop pat.length
               else c :: lReplaceFirst pat rep cs

/-- JavaScript String.replace with string pattern and replacement. -/
def sReplaceFirst (s pat rep : String) : String := ⟨lReplaceFirst pat.data rep.data s.data⟩

/-- Drops the first n characters of a string. -/
def sDrop (s : String) (n : Nat) : String := ⟨s.data.drop n⟩

/-- JavaScript Array.prototype.join with a single space separator. -/
def joinSpace : List String → String
  | [] => ""
  | [x] => x
  | x :: y :: xs => x ++ " " ++ joinSpace (y :: xs)

/-- Splits a character list at every occurrence of sep (JavaScript
String.split with a single character separator). -/
def splitOnCharL (sep : Char) : List Char → List (List Char)
  | [] => [[]]
  | c :: cs =>
    match splitOnCharL sep cs with
    | [] => [[]]
    | h :: t => if c = sep then [] :: h :: t else (c :: h) :: t

/-- JavaScript String.split with a one character separator. -/
def splitChar (sep : Char) (s : String) : List String :=
  (splitOnCharL sep s.data).map String.mk

end StrOps

open StrOps

namespace Readme

/-- Embeds resolveUrl from src/server/utils/readme.ts: empty and
fragment URLs and absolute or protocol relative URLs pass through,
anything else is rewritten onto the jsdelivr CDN with one leading ./
stripped (the source uses an anchored regex replace). -/
def resolveUrl (url packageName : String) : String :=
  if url = "" then url
  else if sStarts url "#" then url
  else if sStarts url "http://" || sStarts url "https://" || sStarts url "//" then url
  else "https://cdn.jsdelivr.net/npm/" ++ packageName ++ "/" ++
    (if sStarts url "./" then sDrop url 2 else url)

/-- Embeds resolveImageUrl from src/server/utils/readme.ts: resolveUrl
followed by the GitHub blob to raw rewrite (first occurrence only,
mirroring the JavaScript String.replace call). -/
def resolveImageUrl (url packageName : String) : String :=
  let resolved := resolveUrl url packageName
  if sContains resolved "github.com" && sContains resolved "/blob/" then
    sReplaceFirst resolved "/blob/" "/raw/"
  else resolved

/-- Embeds the renderer.heading override from src/server/utils/readme.ts. -/
def headingHtml (depth : Nat) (text : String) : String :=
  let semanticLevel := min (depth + 2) 6
  "<h" ++ toString semanticLevel ++ " data-level=\"" ++ toString depth ++ "\">" ++
    text ++ "</h" ++ toString semanticLevel ++ ">\n"

/-- Embeds the renderer.link override from src/server/utils/readme.ts.
The title argument models the nullable marked token title, where an
empty string is falsy in JavaScript. -/
def linkHtml (href : String) (title : Option String) (text packageName : String) : String :=
  let resolvedHref := resolveUrl href packageName
  let titleAttr := match title with
    | some t => if t = "" then "" else " title=\"" ++ t ++ "\""
    | none => ""
  let isExternal := sStarts resolvedHref "http://" || sStarts resolvedHref "https://"
  let relAttr := if isExternal then " rel=\"nofollow noreferrer noopener\"" else ""
  let targetAttr := if isExternal then " target=\"_blank\"" else ""
  "<a href=\"" ++ resolvedHref ++ "\"" ++ titleAttr ++ relAttr ++ targetAttr ++ ">" ++
    text ++ "</a>"

/-- Embeds the renderer.image override from src/server/utils/readme.ts. -/
def imageHtml (href : String) (title : Option String) (text packageName : String) : String :=
  let resolvedHref := resolveImageUrl href packageName
  let titleAttr := match title with
    | some t => if t = "" then "" else " title=\"" ++ t ++ "\""
    | none => ""
  let altAttr := if text = "" then "" else " alt=\"" ++ text ++ "\""
  "<img src=\"" ++ resolvedHref ++ "\"" ++ altAttr ++ titleAttr ++ ">"

end Readme

/-- Claim C3: for every Markdown heading of original level d (1 ≤ d ≤ 6), the
rendered output emits a heading element whose semantic level is min(d + 2, 6)
and whose data-level attribute equals d; in particular "# Title" (heading
depth 1, inline text Title) renders an h3 with data-level 1. -/
theorem heading_levels (d : Nat) (t : String) (h1 : 1 ≤ d) (h2 : d ≤ 6) :
    Readme.headingHtml d t =
      "<h" ++ toString (min (d + 2) 6) ++ " data-level=\"" ++ toString d ++ "\">" ++
        t ++ "</h" ++ toString (min (d + 2) 6) ++ ">\n"
  ∧ Readme.headingHtml 1 "Title" = "<h3 data-level=\"1\">Title</h3>\n" :=
  ⟨rfl, by decide⟩

/-- Witness for heading_levels at depth 2. -/
theorem heading_levels_w :
    Readme.headingHtml 2 "x" = "<h4 data-level=\"2\">x</h4>\n" :=
  ((heading_levels 2 "x" (by decide) (by decide)).1).trans (by decide)

/-- Claim C4 counterexample: the empty image src URL does not start with any of
the pass-through markers, yet it is returned unchanged rather than rewritten to
the CDN URL the claim prescribes for the otherwise branch. -/
theorem resolve_image_empty_cex :
    Readme.resolveImageUrl "" "foo" = "" ∧
    Readme.resolveImageUrl "" "foo" ≠ "https://cdn.jsdelivr.net/npm/foo/" :=
  ⟨by decide, by decide⟩

/-- Claim C4 (amended): for every image src URL u and package p, an empty u
passes through; u starting with a fragment marker or an absolute or protocol
relative marker passes through resolveUrl unchanged; every other u is rewritten
to the jsdelivr CDN with one leading ./ stripped; resolveImageUrl additionally
replaces the first /blob/ with /raw/ when the resolved URL mentions github.com
and /blob/; and ./img.png in package foo resolves to the CDN URL. -/
theorem resolve_image_url_spec (u p : String) :
    (u = "" → Readme.resolveImageUrl u p = u)
  ∧ ((sStarts u "#" = true ∨ sStarts u "http://" = true ∨ sStarts u "https://" = true ∨
        sStarts u "//" = true) → Readme.resolveUrl u p = u)
  ∧ (u ≠ "" → sStarts u "#" = false → sStarts u "http://" = false →
      sStarts u "https://" = false → sStarts u "//" = false →
      Readme.resolveUrl u p =
        "https://cdn.jsdelivr.net/npm/" ++ p ++ "/" ++ (if sStarts u "./" then sDrop u 2 else u))
  ∧ Readme.resolveImageUrl u p =
      (if sContains (Readme.resolveUrl u p) "github.com" && sContains (Readme.resolveUrl u p) "/blob/"
        then sReplaceFirst (Readme.resolveUrl u p) "/blob/" "/raw/" else Readme.resolveUrl u p)
  ∧ Readme.resolveImageUrl "./img.png" "foo" = "https://cdn.jsdelivr.net/npm/foo/img.png" := by
  refine ⟨?_, ?_, ?_, rfl, by decide⟩
  · intro h0
    subst h0
    rfl
  · intro h
    by_cases h0 : u = ""
    · simp [Readme.resolveUrl, h0]
    · rcases h with h1 | h1 | h1 | h1 <;> by_cases h2 : sStarts u "#" = true <;>
        simp [Readme.resolveUrl, h0, h1, h2]
  · intro hs h1 h2 h3 h4
    simp [Readme.resolveUrl, hs, h1, h2, h3, h4]

/-- Witness for resolve_image_url_spec on a relative and an absolute URL. -/
theorem resolve_image_url_spec_w :
    Readme.resolveUrl "./img.png" "foo" = "https://cdn.jsdelivr.net/npm/foo/img.png"
  ∧ Readme.resolveUrl "https://example.com/a" "foo" = "https://example.com/a" :=
  ⟨((resolve_image_url_spec "./img.png" "foo").2.2.1 (by decide) (by decide) (by decide)
      (by decide) (by decide)).trans (by decide),
   (resolve_image_url_spec "https://example.com/a" "foo").2.1 (Or.inr (Or.inr (Or.inl (by decide))))⟩

/-- Claim C10 counterexample: the empty URL is a pass-through case too, so the
pass-through cases are not limited to the four listed markers and not every
other URL reaches the CDN rewrite. -/
theorem resolve_url_empty_cex :
    Readme.resolveUrl "" "bar" = "" ∧
    Readme.resolveUrl "" "bar" ≠ "https://cdn.jsdelivr.net/npm/bar/" :=
  ⟨by decide, by decide⟩

/-- Claim C10 (amended): every nonempty URL that does not start with a
fragment, http, https or protocol relative marker is rewritten to the
jsdelivr CDN, including URLs carrying another scheme such as mailto or data,
even though the sanitizer allows the mailto scheme. -/
theorem resolve_url_scheme_unaware (u p : String) :
    (u ≠ "" → sStarts u "#" = false → sStarts u "http://" = false → sStarts u "https://" = false →
      sStarts u "//" = false →
      Readme.resolveUrl u p =
        "https://cdn.jsdelivr.net/npm/" ++ p ++ "/" ++ (if sStarts u "./" then sDrop u 2 else u))
  ∧ Readme.resolveUrl "mailto:user@example.com" "foo" =
      "https://cdn.jsdelivr.net/npm/foo/mailto:user@example.com"
  ∧ Readme.resolveUrl "data:text/html,hi" "foo" =
      "https://cdn.jsdelivr.net/npm/foo/data:text/html,hi" := by
  refine ⟨?_, by decide, by decide⟩
  intro hs h1 h2 h3 h4
  simp [Readme.resolveUrl, hs, h1, h2, h3, h4]

/-- Witness for resolve_url_scheme_unaware on a mailto URL. -/
theorem resolve_url_scheme_unaware_w :
    Readme.resolveUrl "mailto:a@b.c" "pkg" = "https://cdn.jsdelivr.net/npm/pkg/mailto:a@b.c" :=
  ((resolve_url_scheme_unaware "mailto:a@b.c" "pkg").1 (by decide) (by decide) (by decide)
    (by decide) (by decide)).trans (by decide)

/-- Claim C5: every rendered link resolves its href with resolveUrl, which is
the image resolution minus the blob to raw rewrite, and the rel plus target
attributes appear exactly when the resolved href is absolute http or https;
fragment links get neither attribute. -/
theorem link_render_spec (href : String) (title : Option String) (text p : String) :
    Readme.linkHtml href title text p =
      "<a href=\"" ++ Readme.resolveUrl href p ++ "\"" ++
        (match title with
          | some t => if t = "" then "" else " title=\"" ++ t ++ "\""
          | none => "") ++
        (if sStarts (Readme.resolveUrl href p) "http://" ||
            sStarts (Readme.resolveUrl href p) "https://"
          then " rel=\"nofollow noreferrer noopener\" target=\"_blank\"" else "") ++
      ">" ++ text ++ "</a>"
  ∧ ((sContains (Readme.resolveUrl href p) "github.com" = false ∨
      sContains (Readme.resolveUrl href p) "/blob/" = false) →
      Readme.resolveImageUrl href p = Readme.resolveUrl href p)
  ∧ Readme.linkHtml "#usage" none "Usage" "foo" = "<a href=\"#usage\">Usage</a>"
  ∧ Readme.linkHtml "https://example.com" none "Ex" "foo" =
      "<a href=\"https://example.com\" rel=\"nofollow noreferrer noopener\" target=\"_blank\">Ex</a>" := by
  have hm : ∀ s : String,
      " rel=\"nofollow noreferrer noopener\"" ++ (" target=\"_blank\"" ++ s) =
      " rel=\"nofollow noreferrer noopener\" target=\"_blank\"" ++ s := by
    intro s
    rw [← String.append_assoc]
    congr 1
  refine ⟨?_, ?_, by decide, by decide⟩
  · by_cases hx : (sStarts (Readme.resolveUrl href p) "http://" ||
        sStarts (Readme.resolveUrl href p) "https://") = true
    · simp [Readme.linkHtml, hx, String.append_assoc, hm]
    · simp at hx
      simp [Readme.linkHtml, hx.1, hx.2, String.append_assoc]
  · intro h
    rcases h with h1 | h1 <;> simp [Readme.resolveImageUrl, h1]

/-- Witness for link_render_spec: fragment URLs skip the blob rewrite. -/
theorem link_render_spec_w :
    Readme.resolveImageUrl "#top" "foo" = Readme.resolveUrl "#top" "foo" :=
  (link_render_spec "#top" none "t" "foo").2.1 (Or.inl (by decide))

namespace InstallCmd

/-- JSR lookup result from shared/types/jsr (url and latestVersion are not
consulted by the command synthesizer and are omitted). The source field
named exists is renamed jsrExists because exists is a Lean keyword. -/
structure JsrPackageInfo where
  jsrExists : Bool := false
  scope : Option String := none
  name : Option String := none

/-- Options struct of the install command module. packageManager is a string
so that unknown dialects are representable, as in the runtime lookup. -/
structure InstallCommandOptions where
  packageName : String
  packageManager : String
  version : Option String := none
  jsrInfo : Option JsrPackageInfo := none

/-- One dialect descriptor of the local/remote split module. -/
structure PackageManager where
  id : String
  label : String
  action : String
  executeLocal : String
  executeRemote : String
  create : String
  icon : String

/-- The packageManagers table of the local/remote split module. -/
def packageManagers : List PackageManager :=
  [⟨"npm", "npm", "install", "npx", "npx", "npm create", "i-simple-icons:npm"⟩,
   ⟨"pnpm", "pnpm", "add", "pnpm exec", "pnpm dlx", "pnpm create", "i-simple-icons:pnpm"⟩,
   ⟨"yarn", "yarn", "add", "npx", "yarn dlx", "yarn create", "i-simple-icons:yarn"⟩,
   ⟨"bun", "bun", "add", "bunx", "bunx", "bun create", "i-simple-icons:bun"⟩,
   ⟨"deno", "deno", "add", "deno run", "deno run", "deno run", "i-simple-icons:deno"⟩,
   ⟨"vlt", "vlt", "install", "vlx", "vlx", "vlx", "i-custom-vlt"⟩]

/-- Lookup of a dialect descriptor by id (Array.prototype.find). -/
def findPM (pmId : String) : Option PackageManager :=
  packageManagers.find? (fun pm => pm.id = pmId)

/-- Truthiness of an optional string in JavaScript: present and nonempty. -/
def truthy : Option String → Bool
  | some s => !(s = "")
  | none => false

/-- getPackageSpecifier of the local/remote split module. -/
def getPackageSpecifier (o : InstallCommandOptions) : String :=
  if o.packageManager = "deno" then
    match o.jsrInfo with
    | some j =>
      if j.jsrExists && truthy j.scope && truthy j.name then
        "jsr:@" ++ j.scope.getD "" ++ "/" ++ j.name.getD ""
      else "npm:" ++ o.packageName
    | none => "npm:" ++ o.packageName
  else o.packageName

/-- getInstallCommandParts of the local/remote split module. -/
def getInstallCommandParts (o : InstallCommandOptions) : List String :=
  match findPM o.packageManager with
  | none => []
  | some pm =>
    let spec := getPackageSpecifier o
    let version := match o.version with
      | some v => if v = "" then "" else "@" ++ v
      | none => ""
    [pm.label, pm.action, spec ++ version]

/-- getInstallCommand of the local/remote split module. -/
def getInstallCommand (o : InstallCommandOptions) : String :=
  joinSpace (getInstallCommandParts o)

/-- Execute options extending the install options with the two flags,
which are falsy when absent. -/
structure ExecuteCommandOptions extends InstallCommandOptions where
  isBinaryOnly : Bool := false
  isCreatePackage : Bool := false

/-- Modelled from the spec: getCreateShortName of
shared/utils/package-analysis is not under src; the spec says the short
name strips the create- marker from the package name, also after a scope,
and the repository test expects the scope to be dropped as well
(@vue/create-app becomes app); a name without the marker is returned
unchanged. -/
def getCreateShortName (name : String) : String :=
  if sStarts name "create-" then sDrop name 7
  else if sStarts name "@" then
    match splitChar '/' name with
    | [_, rest] => if sStarts rest "create-" then sDrop rest 7 else name
    | _ => name
  else name

/-- getExecuteCommandParts of the local/remote split module. -/
def getExecuteCommandParts (o : ExecuteCommandOptions) : List String :=
  match findPM o.packageManager with
  | none => []
  | some pm =>
    let shortName := getCreateShortName o.packageName
    if o.isCreatePackage && !(shortName = o.packageName) then
      splitChar ' ' pm.create ++ [shortName]
    else
      let executeCmd := if o.isBinaryOnly then pm.executeRemote else pm.executeLocal
      splitChar ' ' executeCmd ++ [getPackageSpecifier o.toInstallCommandOptions]

/-- getExecuteCommand of the local/remote split module. -/
def getExecuteCommand (o : ExecuteCommandOptions) : String :=
  joinSpace (getExecuteCommandParts o)

end InstallCmd

namespace InstallCmdB

/-- One dialect descriptor of the unified execute module. -/
structure PackageManager where
  id : String
  label : String
  action : String
  execute : String
  icon : String

/-- The packageManagers table of the unified execute module. -/
def packageManagers : List PackageManager :=
  [⟨"npm", "npm", "install", "npx", "i-simple-icons:npm"⟩,
   ⟨"pnpm", "pnpm", "add", "pnpm dlx", "i-simple-icons:pnpm"⟩,
   ⟨"yarn", "yarn", "add", "yarn dlx", "i-simple-icons:yarn"⟩,
   ⟨"bun", "bun", "add", "bunx", "i-simple-icons:bun"⟩,
   ⟨"deno", "deno", "add", "deno run", "i-simple-icons:deno"⟩,
   ⟨"vlt", "vlt", "install", "vlt x", "i-custom-vlt"⟩]

/-- Lookup of a dialect descriptor by id. -/
def findPM (pmId : String) : Option PackageManager :=
  packageManagers.find? (fun pm => pm.id = pmId)

/-- getPackageSpecifier of the unified execute module (textually identical
to the split module version; it takes the same options struct). -/
def getPackageSpecifier (o : InstallCmd.InstallCommandOptions) : String :=
  if o.packageManager = "deno" then
    match o.jsrInfo with
    | some j =>
      if j.jsrExists && InstallCmd.truthy j.scope && InstallCmd.truthy j.name then
        "jsr:@" ++ j.scope.getD "" ++ "/" ++ j.name.getD ""
      else "npm:" ++ o.packageName
    | none => "npm:" ++ o.packageName
  else o.packageName

/-- getInstallCommandParts of the unified execute module. -/
def getInstallCommandParts (o : InstallCmd.InstallCommandOptions) : List String :=
  match findPM o.packageManager with
  | none => []
  | some pm =>
    let spec := getPackageSpecifier o
    let version := match o.version with
      | some v => if v = "" then "" else "@" ++ v
      | none => ""
    [pm.label, pm.action, spec ++ version]

/-- getInstallCommand of the unified execute module. -/
def getInstallCommand (o : InstallCmd.InstallCommandOptions) : String :=
  joinSpace (getInstallCommandParts o)

/-- getExecuteCommandParts of the unified execute module: the execute token
is kept whole, not split into words. -/
def getExecuteCommandParts (o : InstallCmd.InstallCommandOptions) : List String :=
  match findPM o.packageManager with
  | none => []
  | some pm => [pm.execute, getPackageSpecifier o]

/-- getExecuteCommand of the unified execute module. -/
def getExecuteCommand (o : InstallCmd.InstallCommandOptions) : String :=
  joinSpace (getExecuteCommandParts o)

end InstallCmdB

/-- Claim C6: getPackageSpecifier returns jsr:@scope/name when the dialect is
deno and jsrInfo exists with both scope and name present (nonempty, as the
source tests truthiness); it returns npm:packageName when the dialect is deno
and jsrInfo is absent, has exists false, or lacks scope or name; and it
returns packageName unchanged for every other dialect. -/
theorem package_specifier_spec (o : InstallCmd.InstallCommandOptions) :
    (∀ j s n, o.packageManager = "deno" → o.jsrInfo = some j → j.jsrExists = true →
      j.scope = some s → s ≠ "" → j.name = some n → n ≠ "" →
      InstallCmd.getPackageSpecifier o = "jsr:@" ++ s ++ "/" ++ n)
  ∧ (o.packageManager = "deno" →
      (o.jsrInfo = none ∨ ∃ j, o.jsrInfo = some j ∧
        (j.jsrExists = false ∨ j.scope = none ∨ j.name = none)) →
      InstallCmd.getPackageSpecifier o = "npm:" ++ o.packageName)
  ∧ (o.packageManager ≠ "deno" → InstallCmd.getPackageSpecifier o = o.packageName) := by
  refine ⟨?_, ?_, ?_⟩
  · intro j s n hd hj he hs hsne hn hnne
    simp [InstallCmd.getPackageSpecifier, hd, hj, he, hs, hn, InstallCmd.truthy, hsne, hnne]
  · intro hd hcase
    rcases hcase with hnone | ⟨j, hj, hcase⟩
    · simp [InstallCmd.getPackageSpecifier, hd, hnone]
    · rcases hcase with hx | hx | hx <;>
        simp [InstallCmd.getPackageSpecifier, hd, hj, hx, InstallCmd.truthy]
  · intro hd
    simp [InstallCmd.getPackageSpecifier, hd]

/-- Witness for package_specifier_spec on the literal examples of the spec. -/
theorem package_specifier_spec_w :
    InstallCmd.getPackageSpecifier ⟨"@trpc/server", "deno", none, some ⟨true, some "trpc", some "server"⟩⟩ =
      "jsr:@trpc/server"
  ∧ InstallCmd.getPackageSpecifier ⟨"@trpc/server", "deno", none, some ⟨false, none, none⟩⟩ =
      "npm:@trpc/server"
  ∧ InstallCmd.getPackageSpecifier ⟨"lodash", "npm", none, none⟩ = "lodash" := by
  refine ⟨?_, ?_, ?_⟩
  · exact ((package_specifier_spec _).1 _ "trpc" "server" rfl rfl rfl rfl (by decide) rfl
      (by decide)).trans (by decide)
  · exact ((package_specifier_spec ⟨"@trpc/server", "deno", none, some ⟨false, none, none⟩⟩).2.1 rfl
      (Or.inr ⟨_, rfl, Or.inl rfl⟩)).trans (by decide)
  · exact (package_specifier_spec ⟨"lodash", "npm", none, none⟩).2.2 (by decide)

/-- Dialect lookup succeeds exactly on the six known ids. -/
lemma findPM_isSome_iff (s : String) :
    s ∈ ["npm", "pnpm", "yarn", "bun", "deno", "vlt"] ↔ (InstallCmd.findPM s).isSome = true := by
  by_cases h1 : s = "npm"
  · subst h1; decide
  by_cases h2 : s = "pnpm"
  · subst h2; decide
  by_cases h3 : s = "yarn"
  · subst h3; decide
  by_cases h4 : s = "bun"
  · subst h4; decide
  by_cases h5 : s = "deno"
  · subst h5; decide
  by_cases h6 : s = "vlt"
  · subst h6; decide
  · simp [InstallCmd.findPM, InstallCmd.packageManagers, List.find?, h1, h2, h3, h4, h5, h6,
      eq_comm]

/-- Claim C7: for each of the six known dialects, getInstallCommandParts is the
three part list of label, action verb, and specifier with an at-version suffix
exactly when a nonempty version is supplied; dialect membership coincides with
lookup success; an unknown dialect yields the empty list and empty command with
no failure; and getInstallCommand is the parts joined by single spaces. -/
theorem install_parts_spec (o : InstallCmd.InstallCommandOptions) :
    (∀ pm, InstallCmd.findPM o.packageManager = some pm →
        (o.version = none →
          InstallCmd.getInstallCommandParts o =
            [pm.label, pm.action, InstallCmd.getPackageSpecifier o])
      ∧ (∀ v, o.version = some v → v ≠ "" →
          InstallCmd.getInstallCommandParts o =
            [pm.label, pm.action, InstallCmd.getPackageSpecifier o ++ ("@" ++ v)]))
  ∧ (o.packageManager ∈ ["npm", "pnpm", "yarn", "bun", "deno", "vlt"] ↔
      (InstallCmd.findPM o.packageManager).isSome = true)
  ∧ (InstallCmd.findPM o.packageManager = none →
      InstallCmd.getInstallCommandParts o = [] ∧ InstallCmd.getInstallCommand o = "")
  ∧ InstallCmd.getInstallCommand o = joinSpace (InstallCmd.getInstallCommandParts o) := by
  refine ⟨?_, ?_, ?_, rfl⟩
  · intro pm hpm
    constructor
    · intro hv
      simp [InstallCmd.getInstallCommandParts, hpm, hv]
    · intro v hv hvne
      simp [InstallCmd.getInstallCommandParts, hpm, hv, hvne, String.append_assoc]
  · exact findPM_isSome_iff o.packageManager
  · intro h
    refine ⟨?_, ?_⟩ <;>
      simp [InstallCmd.getInstallCommandParts, InstallCmd.getInstallCommand, h, StrOps.joinSpace]

/-- Witness for install_parts_spec: the npm lodash example of the spec and an
unknown dialect. -/
theorem install_parts_spec_w :
    InstallCmd.getInstallCommand ⟨"lodash", "npm", none, none⟩ = "npm install lodash"
  ∧ InstallCmd.getInstallCommandParts ⟨"lodash", "cargo", none, none⟩ = [] := by
  constructor
  · have h := ((install_parts_spec ⟨"lodash", "npm", none, none⟩).1
      ⟨"npm", "npm", "install", "npx", "npx", "npm create", "i-simple-icons:npm"⟩ rfl).1 rfl
    have h4 := (install_parts_spec ⟨"lodash", "npm", none, none⟩).2.2.2
    rw [h4, h]
    decide
  · exact ((install_parts_spec ⟨"lodash", "cargo", none, none⟩).2.2.1 rfl).1

/-- Claim C8 counterexample: the two modules disagree on pnpm as well, which
the claim excludes from the differing dialects: the split module emits the
local execute pnpm exec while the unified module emits pnpm dlx. -/
theorem modules_exec_pnpm_cex :
    InstallCmd.getExecuteCommandParts ⟨⟨"eslint", "pnpm", none, none⟩, false, false⟩ =
      ["pnpm", "exec", "eslint"]
  ∧ InstallCmdB.getExecuteCommandParts ⟨"eslint", "pnpm", none, none⟩ = ["pnpm dlx", "eslint"]
  ∧ InstallCmd.getExecuteCommandParts ⟨⟨"eslint", "pnpm", none, none⟩, false, false⟩ ≠
      InstallCmdB.getExecuteCommandParts ⟨"eslint", "pnpm", none, none⟩ :=
  ⟨by decide, by decide, by decide⟩

/-- Claim C8 (amended): the two duplicated modules agree on
getInstallCommandParts for every input; on the local execute path their part
lists agree exactly for npm and bun and differ for pnpm, yarn, deno and vlt,
where the deno difference is only token splitting: the joined deno execute
command strings coincide. -/
theorem modules_agreement (o : InstallCmd.InstallCommandOptions) :
    InstallCmd.getInstallCommandParts o = InstallCmdB.getInstallCommandParts o
  ∧ ((o.packageManager = "npm" ∨ o.packageManager = "bun") →
      InstallCmd.getExecuteCommandParts ⟨o, false, false⟩ = InstallCmdB.getExecuteCommandParts o)
  ∧ ((o.packageManager = "pnpm" ∨ o.packageManager = "yarn" ∨ o.packageManager = "deno" ∨
      o.packageManager = "vlt") →
      InstallCmd.getExecuteCommandParts ⟨o, false, false⟩ ≠ InstallCmdB.getExecuteCommandParts o)
  ∧ (o.packageManager = "deno" →
      InstallCmd.getExecuteCommand ⟨o, false, false⟩ = InstallCmdB.getExecuteCommand o) := by
  obtain ⟨pn, pm, v, j⟩ := o
  refine ⟨?_, ?_, ?_, ?_⟩
  · by_cases h1 : pm = "npm"
    · subst h1; rfl
    by_cases h2 : pm = "pnpm"
    · subst h2; rfl
    by_cases h3 : pm = "yarn"
    · subst h3; rfl
    by_cases h4 : pm = "bun"
    · subst h4; rfl
    by_cases h5 : pm = "deno"
    · subst h5; rfl
    by_cases h6 : pm = "vlt"
    · subst h6; rfl
    · simp [InstallCmd.getInstallCommandParts, InstallCmdB.getInstallCommandParts,
        InstallCmd.findPM, InstallCmdB.findPM, InstallCmd.packageManagers,
        InstallCmdB.packageManagers, List.find?, h1, h2, h3, h4, h5, h6, eq_comm]
  · intro h
    rcases h with h | h <;> (subst h; rfl)
  · intro h
    rcases h with h | h | h | h <;> subst h <;> intro heq
    · have hA : InstallCmd.getExecuteCommandParts
          ⟨⟨pn, "pnpm", v, j⟩, false, false⟩ =
          ["pnpm", "exec", InstallCmd.getPackageSpecifier ⟨pn, "pnpm", v, j⟩] := rfl
      have hB : InstallCmdB.getExecuteCommandParts ⟨pn, "pnpm", v, j⟩ =
          ["pnpm dlx", InstallCmdB.getPackageSpecifier ⟨pn, "pnpm", v, j⟩] := rfl
      rw [hA, hB] at heq
      injection heq with hh _
      exact absurd hh (by decide)
    · have hA : InstallCmd.getExecuteCommandParts
          ⟨⟨pn, "yarn", v, j⟩, false, false⟩ =
          ["npx", InstallCmd.getPackageSpecifier ⟨pn, "yarn", v, j⟩] := rfl
      have hB : InstallCmdB.getExecuteCommandParts ⟨pn, "yarn", v, j⟩ =
          ["yarn dlx", InstallCmdB.getPackageSpecifier ⟨pn, "yarn", v, j⟩] := rfl
      rw [hA, hB] at heq
      injection heq with hh _
      exact absurd hh (by decide)
    · have hA : InstallCmd.getExecuteCommandParts
          ⟨⟨pn, "deno", v, j⟩, false, false⟩ =
          ["deno", "run", InstallCmd.getPackageSpecifier ⟨pn, "deno", v, j⟩] := rfl
      have hB : InstallCmdB.getExecuteCommandParts ⟨pn, "deno", v, j⟩ =
          ["deno run", InstallCmdB.getPackageSpecifier ⟨pn, "deno", v, j⟩] := rfl
      rw [hA, hB] at heq
      injection heq with hh _
      exact absurd hh (by decide)
    · have hA : InstallCmd.getExecuteCommandParts
          ⟨⟨pn, "vlt", v, j⟩, false, false⟩ =
          ["vlx", InstallCmd.getPackageSpecifier ⟨pn, "vlt", v, j⟩] := rfl
      have hB : InstallCmdB.getExecuteCommandParts ⟨pn, "vlt", v, j⟩ =
          ["vlt x", InstallCmdB.getPackageSpecifier ⟨pn, "vlt", v, j⟩] := rfl
      rw [hA, hB] at heq
      injection heq with hh _
      exact absurd hh (by decide)
  · intro h
    subst h
    have hA : InstallCmd.getExecuteCommandParts ⟨⟨pn, "deno", v, j⟩, false, false⟩ =
        ["deno", "run", InstallCmd.getPackageSpecifier ⟨pn, "deno", v, j⟩] := rfl
    have hB : InstallCmdB.getExecuteCommandParts ⟨pn, "deno", v, j⟩ =
        ["deno run", InstallCmdB.getPackageSpecifier ⟨pn, "deno", v, j⟩] := rfl
    show joinSpace _ = joinSpace _
    rw [hA, hB]
    show ("deno" ++ " ") ++ (("run" ++ " ") ++ InstallCmd.getPackageSpecifier ⟨pn, "deno", v, j⟩) =
      ("deno run" ++ " ") ++ InstallCmdB.getPackageSpecifier ⟨pn, "deno", v, j⟩
    rw [← String.append_assoc]
    congr 1

/-- Witness for modules_agreement on yarn install parts, npm execute parts
and the joined deno execute command. -/
theorem modules_agreement_w :
    InstallCmd.getInstallCommandParts ⟨"lodash", "yarn", none, none⟩ =
      InstallCmdB.getInstallCommandParts ⟨"lodash", "yarn", none, none⟩
  ∧ InstallCmd.getExecuteCommandParts ⟨⟨"eslint", "npm", none, none⟩, false, false⟩ =
      InstallCmdB.getExecuteCommandParts ⟨"eslint", "npm", none, none⟩
  ∧ InstallCmd.getExecuteCommand ⟨⟨"eslint", "deno", none, none⟩, false, false⟩ =
      InstallCmdB.getExecuteCommand ⟨"eslint", "deno", none, none⟩ :=
  ⟨(modules_agreement ⟨"lodash", "yarn", none, none⟩).1,
   (modules_agreement ⟨"eslint", "npm", none, none⟩).2.1 (Or.inl rfl),
   (modules_agreement ⟨"eslint", "deno", none, none⟩).2.2.2 rfl⟩

namespace Sanitizer

mutual
/-- Parsed HTML fragment: text node or element with attributes and children. -/
inductive Html where
  | text (s : String) : Html
  | elem (tag : String) (attrs : List (String × String)) (children : HtmlList) : Html
/-- List of HTML nodes as a mutual inductive, for clean mutual recursion. -/
inductive HtmlList where
  | nil : HtmlList
  | cons (h : Html) (t : HtmlList) : HtmlList
end

/-- The ALLOWED_TAGS list of src/server/utils/readme.ts, verbatim. -/
def ALLOWED_TAGS : List String :=
  ["h3", "h4", "h5", "h6", "p", "br", "hr", "ul", "ol", "li", "blockquote", "pre", "code",
   "a", "strong", "em", "del", "s", "table", "thead", "tbody", "tr", "th", "td",
   "img", "picture", "source", "details", "summary", "div", "span", "sup", "sub", "kbd", "mark"]

/-- The ALLOWED_ATTR record of src/server/utils/readme.ts, verbatim. -/
def ALLOWED_ATTR : List (String × List String) :=
  [("a", ["href", "title", "target", "rel"]),
   ("img", ["src", "alt", "title", "width", "height"]),
   ("source", ["src", "srcset", "type", "media"]),
   ("th", ["colspan", "rowspan", "align"]),
   ("td", ["colspan", "rowspan", "align"]),
   ("h3", ["id", "data-level"]),
   ("h4", ["id", "data-level"]),
   ("h5", ["id", "data-level"]),
   ("h6", ["id", "data-level"]),
   ("blockquote", ["data-callout"]),
   ("details", ["open"]),
   ("code", ["class"]),
   ("pre", ["class", "style"]),
   ("span", ["class", "style"]),
   ("div", ["class", "style"])]

/-- Boolean membership in a string list. -/
def hasStr (l : List String) (x : String) : Bool := l.any (fun y => y = x)

/-- Attributes allowed for a tag; a tag without an entry allows none. -/
def allowedAttrsFor (tag : String) : List String :=
  ((ALLOWED_ATTR.find? (fun pr => pr.1 = tag)).map Prod.snd).getD []

/-- The allowedSchemes option of the sanitizeHtml call. -/
def allowedSchemes : List String := ["http", "https", "mailto"]

/-- Attribute names holding URLs, checked against allowedSchemes. -/
def urlAttrNames : List String := ["href", "src", "srcset"]

/-- Scans for a scheme: characters before the first colon, aborting at the
first slash, question mark or fragment marker. -/
def schemeOfAux : List Char → List Char → Option (List Char)
  | _, [] => none
  | acc, c :: cs =>
    if c = ':' then (if acc.isEmpty then none else some acc.reverse)
    else if c = '/' || c = '?' || c = '#' then none
    else schemeOfAux (c :: acc) cs

/-- Modelled from the spec: the scheme of a URL attribute value (the engine of
sanitize-html is not part of this repository); lowercased for the
case-insensitive scheme comparison. -/
def schemeOf (v : String) : Option String :=
  (schemeOfAux [] v.data).map (fun l => String.mk (l.map Char.toLower))

/-- A URL attribute value passes when it has no scheme (relative or protocol
relative) or an allow-listed scheme. -/
def schemeAllowed (v : String) : Bool :=
  match schemeOf v with
  | none => true
  | some sch => hasStr allowedSchemes sch

/-- An attribute survives when its name is allow-listed for the tag and, for
URL attributes, its value has an allowed scheme. -/
def attrKept (tag : String) (p : String × String) : Bool :=
  hasStr (allowedAttrsFor tag) p.1 && (!(hasStr urlAttrNames p.1) || schemeAllowed p.2)

/-- First value of the named attribute. -/
def lookupAttr (attrs : List (String × String)) (n : String) : Option String :=
  (attrs.find? (fun p => p.1 = n)).map Prod.snd

/-- JavaScript object property assignment: replace the first entry of that
name in place, or append. -/
def setAttr : List (String × String) → String → String → List (String × String)
  | [], n, v => [(n, v)]
  | (m, w) :: rest, n, v => if m = n then (n, v) :: rest else (m, w) :: setAttr rest n v

/-- Modelled from the spec: ufo hasProtocol with acceptRelative, true for
absolute (scheme bearing) and protocol relative URLs. -/
def hasProtocolRel (v : String) : Bool :=
  (schemeOf v).isSome || sStarts v "//"

/-- The transformTags passes of the sanitizeHtml call in renderReadmeHtml:
img src resolution and the external link rel plus target rewrite. -/
def transformAttrs (pkg tag : String) (attrs : List (String × String)) :
    List (String × String) :=
  if tag = "img" then
    match lookupAttr attrs "src" with
    | some s => if s = "" then attrs else setAttr attrs "src" (Readme.resolveImageUrl s pkg)
    | none => attrs
  else if tag = "a" then
    match lookupAttr attrs "href" with
    | some h =>
      if h = "" then attrs
      else if hasProtocolRel h then
        setAttr (setAttr attrs "rel" "nofollow noreferrer noopener") "target" "_blank"
      else attrs
    | none => attrs
  else attrs

/-- Tags whose text content is discarded along with the tag (sanitize-html
nonTextTags). -/
def nonTextTags : List String := ["script", "style", "textarea", "option"]

/-- Concatenation of node lists. -/
def appendHL : HtmlList → HtmlList → HtmlList
  | .nil, l => l
  | .cons h t, l => .cons h (appendHL t l)

mutual
/-- Modelled from the spec: the allow-list sanitize-html engine configured by
renderReadmeHtml (the engine library is not part of this repository).
Transforms run first; an allow-listed tag is kept with filtered attributes; a
disallowed non-text tag is dropped while its children are kept; a non-text
tag such as script or style is dropped with its whole content. -/
def sanitizeNode (pkg : String) : Html → HtmlList
  | .text s => .cons (.text s) .nil
  | .elem tag attrs children =>
    let attrs2 := transformAttrs pkg tag attrs
    if hasStr ALLOWED_TAGS tag then
      .cons (.elem tag (attrs2.filter (attrKept tag)) (sanitizeList pkg children)) .nil
    else if hasStr nonTextTags tag then .nil
    else sanitizeList pkg children
/-- Sanitization of a node list. -/
def sanitizeList (pkg : String) : HtmlList → HtmlList
  | .nil => .nil
  | .cons h t => appendHL (sanitizeNode pkg h) (sanitizeList pkg t)
end

mutual
/-- Safety check of one node: no script, style or iframe element, no
event handler attribute, and URL attributes restricted to allowed schemes. -/
def okNode : Html → Bool
  | .text _ => true
  | .elem tag attrs children =>
    !(tag = "script" || tag = "style" || tag = "iframe") &&
    attrs.all (fun p => !(sStarts p.1 "on") &&
      (!(hasStr urlAttrNames p.1) || schemeAllowed p.2)) &&
    okList children
/-- Safety check of a node list. -/
def okList : HtmlList → Bool
  | .nil => true
  | .cons h t => okNode h && okList t
end

end Sanitizer

namespace Sanitizer





lemma okList_append : ∀ a b : HtmlList, okList (appendHL a b) = (okList a && okList b)
  | .nil, b => by simp [appendHL, okList]
  | .cons h t, b => by
    rw [appendHL, okList, okList, okList_append t b, Bool.and_assoc]

lemma hasStr_mem {l : List String} {x : String} (h : hasStr l x = true) : x ∈ l := by
  simp only [hasStr, List.any_eq_true, decide_eq_true_eq] at h
  obtain ⟨y, hy, rfl⟩ := h
  exact hy

lemma allowedAttrsFor_cases (t : String) :
    allowedAttrsFor t = [] ∨ ∃ pr ∈ ALLOWED_ATTR, allowedAttrsFor t = pr.2 := by
  unfold allowedAttrsFor
  cases hf : ALLOWED_ATTR.find? (fun pr => pr.1 = t) with
  | none => left; rfl
  | some pr => right; exact ⟨pr, List.mem_of_find?_eq_some hf, rfl⟩

lemma allowed_attr_not_handler {t a : String}
    (h : hasStr (allowedAttrsFor t) a = true) : sStarts a "on" = false := by
  have hconf : ∀ pr ∈ ALLOWED_ATTR, ∀ x ∈ pr.2, sStarts x "on" = false := by decide
  rcases allowedAttrsFor_cases t with he | ⟨pr, hmem, he⟩
  · rw [he] at h
    simp [hasStr] at h
  · rw [he] at h
    exact hconf pr hmem a (hasStr_mem h)

mutual
theorem okNode_sanitize (pkg : String) : ∀ h : Html, okList (sanitizeNode pkg h) = true
  | .text s => rfl
  | .elem tag attrs children => by
    rw [sanitizeNode]
    by_cases ht : hasStr ALLOWED_TAGS tag
    · have htag : (tag = "script" || tag = "style" || tag = "iframe") = false := by
        have hmem := hasStr_mem ht
        have hall : ∀ x ∈ ALLOWED_TAGS, (x = "script" || x = "style" || x = "iframe") = false := by
          decide
        exact hall tag hmem
      simp only [ht, if_true, okList, okNode, htag, Bool.not_false, Bool.true_and, Bool.and_true]
      refine (Bool.and_eq_true _ _).mpr ⟨?_, okList_sanitize pkg children⟩
      rw [List.all_eq_true]
      intro p hp
      have hkept : attrKept tag p = true := (List.mem_filter.mp hp).2
      simp only [attrKept] at hkept
      have h12 := (Bool.and_eq_true _ _).mp hkept
      simp [allowed_attr_not_handler h12.1, h12.2]
    · by_cases hnt : hasStr nonTextTags tag
      · simp [ht, hnt, okList]
      · simp only [ht, hnt, if_false]
        exact okList_sanitize pkg children

theorem okList_sanitize (pkg : String) : ∀ l : HtmlList, okList (sanitizeList pkg l) = true
  | .nil => rfl
  | .cons h t => by
    rw [sanitizeList, okList_append]
    simp [okNode_sanitize pkg h, okList_sanitize pkg t]
end

end Sanitizer

namespace Sanitizer

/-- Duplicate-free attribute names, as an HTML parser produces. -/
def keysNodup : List (String × String) → Bool
  | [] => true
  | (n, _) :: rest => !(rest.any (fun p => p.1 = n)) && keysNodup rest

mutual
/-- Stability hypothesis for idempotence: attribute names are duplicate free
and every img src is a fixpoint of a second URL resolution (which only fails
for GitHub URLs carrying more than one blob segment). -/
def stableNode (pkg : String) : Html → Bool
  | .text _ => true
  | .elem tag attrs children =>
    keysNodup attrs &&
    (if tag = "img" then
      match lookupAttr attrs "src" with
      | some s => Readme.resolveImageUrl (Readme.resolveImageUrl s pkg) pkg ==
          Readme.resolveImageUrl s pkg
      | none => true
    else true) &&
    stableList pkg children
/-- Stability of a node list. -/
def stableList (pkg : String) : HtmlList → Bool
  | .nil => true
  | .cons h t => stableNode pkg h && stableList pkg t
end

lemma appendHL_nil : ∀ l : HtmlList, appendHL l .nil = l
  | .nil => rfl
  | .cons h t => by rw [appendHL, appendHL_nil t]

lemma appendHL_assoc : ∀ a b c : HtmlList,
    appendHL (appendHL a b) c = appendHL a (appendHL b c)
  | .nil, _, _ => rfl
  | .cons h t, b, c => by rw [appendHL, appendHL, appendHL, appendHL_assoc t b c]

lemma sanitizeList_append (pkg : String) : ∀ a b : HtmlList,
    sanitizeList pkg (appendHL a b) =
      appendHL (sanitizeList pkg a) (sanitizeList pkg b)
  | .nil, b => rfl
  | .cons h t, b => by
    rw [appendHL, sanitizeList, sanitizeList, sanitizeList_append pkg t b, appendHL_assoc]

lemma filter_self_idem (p : String × String → Bool) (l : List (String × String)) :
    (l.filter p).filter p = l.filter p := by
  simp [List.filter_filter]

lemma lookupAttr_cons_pos {m n w : String} {rest : List (String × String)} (h : m = n) :
    lookupAttr ((m, w) :: rest) n = some w := by
  simp [lookupAttr, List.find?_cons_of_pos, h]

lemma lookupAttr_cons_neg {m n w : String} {rest : List (String × String)} (h : ¬(m = n)) :
    lookupAttr ((m, w) :: rest) n = lookupAttr rest n := by
  simp only [lookupAttr]
  rw [List.find?_cons_of_neg]
  simpa using h

lemma lookup_setAttr_self : ∀ (l : List (String × String)) (n v : String),
    lookupAttr (setAttr l n v) n = some v
  | [], n, v => lookupAttr_cons_pos rfl
  | (m, w) :: rest, n, v => by
    by_cases h : m = n
    · rw [setAttr, if_pos h]
      exact lookupAttr_cons_pos rfl
    · rw [setAttr, if_neg h, lookupAttr_cons_neg h]
      exact lookup_setAttr_self rest n v

lemma lookup_setAttr_other : ∀ (l : List (String × String)) (n m v : String), ¬(m = n) →
    lookupAttr (setAttr l m v) n = lookupAttr l n
  | [], n, m, v, hmn => by
    rw [setAttr, lookupAttr_cons_neg hmn]
  | (a, w) :: rest, n, m, v, hmn => by
    by_cases h : a = m
    · rw [setAttr, if_pos h, lookupAttr_cons_neg hmn]
      subst h
      by_cases h2 : a = n
      · exact absurd h2 hmn
      · rw [lookupAttr_cons_neg h2]
    · rw [setAttr, if_neg h]
      by_cases h2 : a = n
      · rw [lookupAttr_cons_pos h2, lookupAttr_cons_pos h2]
      · rw [lookupAttr_cons_neg h2, lookupAttr_cons_neg h2]
        exact lookup_setAttr_other rest n m v hmn

lemma setAttr_self : ∀ (l : List (String × String)) (n v : String),
    lookupAttr l n = some v → setAttr l n v = l
  | [], n, v, h => by
    simp [lookupAttr, List.find?] at h
  | (m, w) :: rest, n, v, h => by
    by_cases hm : m = n
    · rw [lookupAttr_cons_pos hm] at h
      rw [setAttr, if_pos hm, hm, Option.some_inj.mp h]
    · rw [lookupAttr_cons_neg hm] at h
      rw [setAttr, if_neg hm, setAttr_self rest n v h]

lemma any_setAttr : ∀ (l : List (String × String)) (n v m : String), ¬(n = m) →
    (setAttr l n v).any (fun p => p.1 = m) = l.any (fun p => p.1 = m)
  | [], n, v, m, h => by simp [setAttr, h]
  | (a, w) :: rest, n, v, m, h => by
    by_cases ha : a = n
    · rw [setAttr, if_pos ha]
      simp [List.any_cons, ha, h]
    · rw [setAttr, if_neg ha]
      simp [List.any_cons, any_setAttr rest n v m h]

lemma keysNodup_setAttr : ∀ (l : List (String × String)) (n v : String),
    keysNodup l = true → keysNodup (setAttr l n v) = true
  | [], n, v, _ => by simp [setAttr, keysNodup]
  | (m, w) :: rest, n, v, h => by
    rw [keysNodup] at h
    obtain ⟨h1, h2⟩ := (Bool.and_eq_true _ _).mp h
    by_cases hm : m = n
    · rw [setAttr, if_pos hm, keysNodup]
      subst hm
      simp only [h1, h2, Bool.and_true]
    · rw [setAttr, if_neg hm, keysNodup]
      refine (Bool.and_eq_true _ _).mpr ⟨?_, keysNodup_setAttr rest n v h2⟩
      rw [any_setAttr rest n v m (fun he => hm he.symm)]
      exact h1

lemma any_false_lookup_none : ∀ (l : List (String × String)) (n : String),
    l.any (fun p => p.1 = n) = false → lookupAttr l n = none
  | [], n, _ => rfl
  | (m, w) :: rest, n, h => by
    simp only [List.any_cons, Bool.or_eq_false_iff] at h
    have hm : ¬(m = n) := by simpa using h.1
    rw [lookupAttr_cons_neg hm]
    exact any_false_lookup_none rest n h.2

lemma lookup_none_filter (q : String × String → Bool) :
    ∀ (l : List (String × String)) (n : String),
    lookupAttr l n = none → lookupAttr (l.filter q) n = none
  | [], n, _ => rfl
  | (m, w) :: rest, n, h => by
    by_cases hm : m = n
    · rw [lookupAttr_cons_pos hm] at h
      exact absurd h (by simp)
    · rw [lookupAttr_cons_neg hm] at h
      rw [List.filter_cons]
      by_cases hq : q (m, w) = true
      · rw [if_pos hq, lookupAttr_cons_neg hm]
        exact lookup_none_filter q rest n h
      · rw [if_neg hq]
        exact lookup_none_filter q rest n h

lemma lookup_filter_kept (q : String × String → Bool) :
    ∀ (l : List (String × String)) (n v : String),
    lookupAttr l n = some v → q (n, v) = true → lookupAttr (l.filter q) n = some v
  | [], n, v, h, _ => by simp [lookupAttr, List.find?] at h
  | (m, w) :: rest, n, v, h, hq => by
    by_cases hm : m = n
    · rw [lookupAttr_cons_pos hm] at h
      obtain rfl : w = v := Option.some_inj.mp h
      subst hm
      rw [List.filter_cons, if_pos hq]
      exact lookupAttr_cons_pos rfl
    · rw [lookupAttr_cons_neg hm] at h
      rw [List.filter_cons]
      by_cases hq2 : q (m, w) = true
      · rw [if_pos hq2, lookupAttr_cons_neg hm]
        exact lookup_filter_kept q rest n v h hq
      · rw [if_neg hq2]
        exact lookup_filter_kept q rest n v h hq

lemma lookup_filter_dropped (q : String × String → Bool) :
    ∀ (l : List (String × String)) (n v : String), keysNodup l = true →
    lookupAttr l n = some v → q (n, v) = false → lookupAttr (l.filter q) n = none
  | [], n, v, _, h, _ => by simp [lookupAttr, List.find?] at h
  | (m, w) :: rest, n, v, hnd, h, hq => by
    rw [keysNodup] at hnd
    obtain ⟨hnd1, hnd2⟩ := (Bool.and_eq_true _ _).mp hnd
    by_cases hm : m = n
    · rw [lookupAttr_cons_pos hm] at h
      obtain rfl : w = v := Option.some_inj.mp h
      subst hm
      rw [List.filter_cons, if_neg (by simp [hq])]
      apply lookup_none_filter
      apply any_false_lookup_none
      simpa using hnd1
    · rw [lookupAttr_cons_neg hm] at h
      rw [List.filter_cons]
      by_cases hq2 : q (m, w) = true
      · rw [if_pos hq2, lookupAttr_cons_neg hm]
        exact lookup_filter_dropped q rest n v hnd2 h hq
      · rw [if_neg hq2]
        exact lookup_filter_dropped q rest n v hnd2 h hq

lemma transform_filtered_idem (pkg tag : String) (attrs : List (String × String))
    (hnd : keysNodup attrs = true)
    (hstable : tag = "img" → ∀ s, lookupAttr attrs "src" = some s →
      Readme.resolveImageUrl (Readme.resolveImageUrl s pkg) pkg = Readme.resolveImageUrl s pkg) :
    transformAttrs pkg tag ((transformAttrs pkg tag attrs).filter (attrKept tag)) =
      (transformAttrs pkg tag attrs).filter (attrKept tag) := by
  by_cases himg : tag = "img"
  · subst himg
    cases hsrc : lookupAttr attrs "src" with
    | none =>
      have h1 : transformAttrs pkg "img" attrs = attrs := by simp [transformAttrs, hsrc]
      rw [h1]
      have h2 := lookup_none_filter (attrKept "img") attrs "src" hsrc
      simp [transformAttrs, h2]
    | some s =>
      by_cases hse : s = ""
      · subst hse
        have h1 : transformAttrs pkg "img" attrs = attrs := by simp [transformAttrs, hsrc]
        rw [h1]
        have h2 : lookupAttr (attrs.filter (attrKept "img")) "src" = some "" :=
          lookup_filter_kept (attrKept "img") attrs "src" "" hsrc (by decide)
        simp [transformAttrs, h2]
      · have h1 : transformAttrs pkg "img" attrs =
            setAttr attrs "src" (Readme.resolveImageUrl s pkg) := by
          simp [transformAttrs, hsrc, hse]
        rw [h1]
        have hndr : keysNodup (setAttr attrs "src" (Readme.resolveImageUrl s pkg)) = true :=
          keysNodup_setAttr attrs "src" _ hnd
        have hr : lookupAttr (setAttr attrs "src" (Readme.resolveImageUrl s pkg)) "src" =
            some (Readme.resolveImageUrl s pkg) := lookup_setAttr_self attrs "src" _
        by_cases hk : attrKept "img" ("src", Readme.resolveImageUrl s pkg) = true
        · have h3 := lookup_filter_kept (attrKept "img") _ "src" _ hr hk
          have hfix : Readme.resolveImageUrl (Readme.resolveImageUrl s pkg) pkg =
              Readme.resolveImageUrl s pkg := hstable rfl s hsrc
          by_cases hre : Readme.resolveImageUrl s pkg = ""
          · rw [hre] at h3
            simp [transformAttrs, hre, h3]
          · have h4 := setAttr_self _ "src" _ h3
            simp [transformAttrs, h3, hre, hfix, h4]
        · have hkf : attrKept "img" ("src", Readme.resolveImageUrl s pkg) = false := by
            simpa using hk
          have h3 := lookup_filter_dropped (attrKept "img") _ "src" _ hndr hr hkf
          simp [transformAttrs, h3]
  · by_cases ha : tag = "a"
    · subst ha
      cases hhref : lookupAttr attrs "href" with
      | none =>
        have h1 : transformAttrs pkg "a" attrs = attrs := by simp [transformAttrs, hhref]
        rw [h1]
        have h2 := lookup_none_filter (attrKept "a") attrs "href" hhref
        simp [transformAttrs, h2]
      | some h =>
        by_cases hhe : h = ""
        · subst hhe
          have h1 : transformAttrs pkg "a" attrs = attrs := by simp [transformAttrs, hhref]
          rw [h1]
          have h2 : lookupAttr (attrs.filter (attrKept "a")) "href" = some "" :=
            lookup_filter_kept (attrKept "a") attrs "href" "" hhref (by decide)
          simp [transformAttrs, h2]
        · by_cases hp : hasProtocolRel h = true
          · have h1 : transformAttrs pkg "a" attrs =
                setAttr (setAttr attrs "rel" "nofollow noreferrer noopener") "target" "_blank" := by
              simp [transformAttrs, hhref, hhe, hp]
            rw [h1]
            have hndl2 : keysNodup
                (setAttr (setAttr attrs "rel" "nofollow noreferrer noopener") "target" "_blank") =
                true := keysNodup_setAttr _ _ _ (keysNodup_setAttr _ _ _ hnd)
            have hh2 : lookupAttr
                (setAttr (setAttr attrs "rel" "nofollow noreferrer noopener") "target" "_blank")
                "href" = some h := by
              rw [lookup_setAttr_other _ "href" "target" _ (by decide),
                lookup_setAttr_other _ "href" "rel" _ (by decide)]
              exact hhref
            by_cases hk : attrKept "a" ("href", h) = true
            · have h3 := lookup_filter_kept (attrKept "a") _ "href" h hh2 hk
              have hrel2 : lookupAttr
                  (setAttr (setAttr attrs "rel" "nofollow noreferrer noopener") "target" "_blank")
                  "rel" = some "nofollow noreferrer noopener" := by
                rw [lookup_setAttr_other _ "rel" "target" _ (by decide)]
                exact lookup_setAttr_self _ _ _
              have htgt2 : lookupAttr
                  (setAttr (setAttr attrs "rel" "nofollow noreferrer noopener") "target" "_blank")
                  "target" = some "_blank" := lookup_setAttr_self _ _ _
              have hrel3 := lookup_filter_kept (attrKept "a") _ "rel" _ hrel2 (by decide)
              have htgt3 := lookup_filter_kept (attrKept "a") _ "target" _ htgt2 (by decide)
              have h4 := setAttr_self _ "rel" _ hrel3
              have h5 := setAttr_self _ "target" _ htgt3
              simp [transformAttrs, h3, hhe, hp, h4, h5]
            · have hkf : attrKept "a" ("href", h) = false := by simpa using hk
              have h3 := lookup_filter_dropped (attrKept "a") _ "href" h hndl2 hh2 hkf
              simp [transformAttrs, h3]
          · have hpf : hasProtocolRel h = false := by simpa using hp
            have h1 : transformAttrs pkg "a" attrs = attrs := by
              simp [transformAttrs, hhref, hhe, hpf]
            rw [h1]
            by_cases hk : attrKept "a" ("href", h) = true
            · have h2 := lookup_filter_kept (attrKept "a") attrs "href" h hhref hk
              simp [transformAttrs, h2, hhe, hpf]
            · have hkf : attrKept "a" ("href", h) = false := by simpa using hk
              have h2 := lookup_filter_dropped (attrKept "a") attrs "href" h hnd hhref hkf
              simp [transformAttrs, h2]
    · simp [transformAttrs, himg, ha]

mutual
theorem sanitize_idem_node (pkg : String) : ∀ h : Html, stableNode pkg h = true →
    sanitizeList pkg (sanitizeNode pkg h) = sanitizeNode pkg h
  | .text s, _ => rfl
  | .elem tag attrs children, hst => by
    rw [stableNode] at hst
    obtain ⟨h12, hchild⟩ := (Bool.and_eq_true _ _).mp hst
    obtain ⟨hnd, hcond⟩ := (Bool.and_eq_true _ _).mp h12
    have hstable : tag = "img" → ∀ s, lookupAttr attrs "src" = some s →
        Readme.resolveImageUrl (Readme.resolveImageUrl s pkg) pkg =
          Readme.resolveImageUrl s pkg := by
      intro he s hs
      subst he
      rw [if_pos rfl, hs] at hcond
      exact eq_of_beq hcond
    rw [sanitizeNode]
    by_cases ht : hasStr ALLOWED_TAGS tag
    · simp only [ht, if_true]
      rw [sanitizeList, sanitizeNode]
      simp only [ht, if_true, sanitizeList, appendHL]
      rw [transform_filtered_idem pkg tag attrs hnd hstable, filter_self_idem,
        sanitize_idem_list pkg children hchild]
    · by_cases hnt : hasStr nonTextTags tag
      · simp [ht, hnt, sanitizeList]
      · simp only [ht, hnt, if_false]
        exact sanitize_idem_list pkg children hchild

theorem sanitize_idem_list (pkg : String) : ∀ l : HtmlList, stableList pkg l = true →
    sanitizeList pkg (sanitizeList pkg l) = sanitizeList pkg l
  | .nil, _ => rfl
  | .cons h t, hst => by
    rw [stableList] at hst
    obtain ⟨hh, ht2⟩ := (Bool.and_eq_true _ _).mp hst
    rw [sanitizeList, sanitizeList_append pkg, sanitize_idem_node pkg h hh,
      sanitize_idem_list pkg t ht2]
end

/-- First img src in a node list, for distinguishing outputs. -/
def firstImgSrc : HtmlList → String
  | .cons (.elem _ attrs _) _ => (lookupAttr attrs "src").getD ""
  | _ => ""

end Sanitizer

/-- Claim C1: for every input fragment, the sanitizer output contains no
script, style or iframe element and no event handler attribute, and every
surviving URL attribute carries no scheme or one of http, https, mailto
(okList checks exactly these three conditions on every node); in particular
the fragment holding script alert(1) sanitizes to the empty output. -/
theorem sanitize_safe (pkg : String) (l : Sanitizer.HtmlList) :
    Sanitizer.okList (Sanitizer.sanitizeList pkg l) = true
  ∧ Sanitizer.sanitizeList "foo"
      (.cons (.elem "script" [] (.cons (.text "alert(1)") .nil)) .nil) = .nil :=
  ⟨Sanitizer.okList_sanitize pkg l, rfl⟩

/-- Claim C9 counterexample: sanitization is not idempotent on every
fragment: an img src that is a GitHub URL with two blob segments is rewritten
again on the second pass, because the blob to raw replacement only replaces
the first occurrence each time. -/
theorem sanitize_not_idempotent_cex :
    Sanitizer.sanitizeList "foo" (Sanitizer.sanitizeList "foo"
      (.cons (.elem "img" [("src", "https://github.com/u/r/blob/a/blob/b.png")] .nil) .nil)) ≠
    Sanitizer.sanitizeList "foo"
      (.cons (.elem "img" [("src", "https://github.com/u/r/blob/a/blob/b.png")] .nil) .nil) :=
  fun h => absurd (congrArg Sanitizer.firstImgSrc h) (by decide)

/-- Claim C9 (amended): sanitize(sanitize(x)) = sanitize(x) for every
fragment whose attribute lists are duplicate free and whose img srcs are
fixpoints of a second URL resolution - which excludes only GitHub img URLs
still containing a blob segment after one rewrite; the allow-list filtering
and the link rel/target transform strip and change nothing on the second
pass. -/
theorem sanitize_idempotent (pkg : String) (l : Sanitizer.HtmlList)
    (h : Sanitizer.stableList pkg l = true) :
    Sanitizer.sanitizeList pkg (Sanitizer.sanitizeList pkg l) =
      Sanitizer.sanitizeList pkg l :=
  Sanitizer.sanitize_idem_list pkg l h

/-- Witness for sanitize_idempotent on a fragment with an external link and
a relative image. -/
theorem sanitize_idempotent_w :
    Sanitizer.stableList "foo"
      (.cons (.elem "a" [("href", "https://example.com")] (.cons (.text "x") .nil))
        (.cons (.elem "img" [("src", "./img.png")] .nil) .nil)) = true
  ∧ Sanitizer.sanitizeList "foo" (Sanitizer.sanitizeList "foo"
      (.cons (.elem "a" [("href", "https://example.com")] (.cons (.text "x") .nil))
        (.cons (.elem "img" [("src", "./img.png")] .nil) .nil))) =
    Sanitizer.sanitizeList "foo"
      (.cons (.elem "a" [("href", "https://example.com")] (.cons (.text "x") .nil))
        (.cons (.elem "img" [("src", "./img.png")] .nil) .nil)) :=
  ⟨by decide, sanitize_idempotent "foo" _ (by decide)⟩

namespace Grouper

/-- Digits-only numeral parse of a version component. -/
def parseNatL (l : List Char) : Option Nat :=
  if l.isEmpty then none
  else if l.all Char.isDigit then some (l.foldl (fun n c => n * 10 + (c.toNat - 48)) 0)
  else none

/-- A prerelease identifier: numeric identifiers order below alphanumeric. -/
inductive PreId where
  | num (n : Nat)
  | alpha (s : List Char)
deriving DecidableEq

/-- Parsed shape of a version string; unparseable components are none and
order lowest, per the graceful degradation contract. -/
structure SemVer where
  major : Option Nat
  minor : Option Nat
  patch : Option Nat
  pre : List PreId
deriving DecidableEq

/-- Splits at the first occurrence of c, if any. -/
def breakAtChar (c : Char) : List Char → List Char × Option (List Char)
  | [] => ([], none)
  | d :: ds =>
    if d = c then ([], some ds)
    else
      let r := breakAtChar c ds
      (d :: r.1, r.2)

/-- Modelled from the spec: the semver parse of the version comparator
(the VersionSelector component is not under src, only its tests are): build
metadata after a plus is ignored, the prerelease part follows the first
hyphen, the core is dot separated numerals. -/
def parseSemVer (s : String) : SemVer :=
  let noBuild := s.data.takeWhile (fun c => !(c = '+'))
  let core := (breakAtChar '-' noBuild).1
  let preTail := (breakAtChar '-' noBuild).2
  let comps := splitOnCharL '.' core
  let major := match comps with
    | a :: _ => parseNatL a
    | [] => none
  let minor := match comps with
    | _ :: b :: _ => parseNatL b
    | _ => none
  let patch := match comps with
    | _ :: _ :: c :: _ => parseNatL c
    | _ => none
  let pre := match preTail with
    | none => []
    | some p => (splitOnCharL '.' p).map (fun id =>
        match parseNatL id with
        | some n => PreId.num n
        | none => PreId.alpha id)
  ⟨major, minor, patch, pre⟩

/-- Three way comparison of naturals. -/
def cmpNat (a b : Nat) : Ordering :=
  if a < b then .lt else if b < a then .gt else .eq

/-- Missing components order lowest. -/
def cmpOptNat : Option Nat → Option Nat → Ordering
  | none, none => .eq
  | none, some _ => .lt
  | some _, none => .gt
  | some a, some b => cmpNat a b

/-- Lexicographic list comparison; a proper prefix orders lower. -/
def cmpLex (cmp : α → α → Ordering) : List α → List α → Ordering
  | [], [] => .eq
  | [], _ :: _ => .lt
  | _ :: _, [] => .gt
  | a :: as, b :: bs => (cmp a b).then (cmpLex cmp as bs)

/-- Character comparison by code point. -/
def cmpChar (a b : Char) : Ordering := cmpNat a.toNat b.toNat

/-- Semver precedence of prerelease identifiers. -/
def cmpPreId : PreId → PreId → Ordering
  | .num a, .num b => cmpNat a b
  | .num _, .alpha _ => .lt
  | .alpha _, .num _ => .gt
  | .alpha a, .alpha b => cmpLex cmpChar a b

/-- Semver precedence of prerelease lists: a release (empty list) orders
above any prerelease. -/
def cmpPre : List PreId → List PreId → Ordering
  | [], [] => .eq
  | [], _ :: _ => .gt
  | _ :: _, [] => .lt
  | a :: as, b :: bs => (cmpPreId a b).then (cmpLex cmpPreId as bs)

/-- Modelled from the spec: the semver comparator - numeric comparison of
major, minor, patch; prerelease sorts before release; build metadata is
ignored; malformed components order lowest rather than failing. -/
def semverCompare (x y : String) : Ordering :=
  let a := parseSemVer x
  let b := parseSemVer y
  (cmpOptNat a.major b.major).then ((cmpOptNat a.minor b.minor).then
    ((cmpOptNat a.patch b.patch).then (cmpPre a.pre b.pre)))

/-- Modelled from the spec: the release line key - the major for major at
least 1, the string 0.minor for major 0 (and for unparseable majors, which
degrade to 0). -/
def releaseKey (v : String) : String :=
  let p := parseSemVer v
  let mj := p.major.getD 0
  if 1 ≤ mj then toString mj else "0." ++ toString (p.minor.getD 0)

/-- Descending stable insertion. -/
def insertDescBy (cmp : α → α → Ordering) (a : α) : List α → List α
  | [] => [a]
  | b :: l => if cmp a b = .gt then a :: b :: l else b :: insertDescBy cmp a l

/-- Descending stable insertion sort. -/
def sortDescBy (cmp : α → α → Ordering) : List α → List α
  | [] => []
  | a :: l => insertDescBy cmp a (sortDescBy cmp l)

/-- Appends a version to the bucket of its key, creating the bucket at the
end on first sight (insertion order of first occurrence). -/
def addToBuckets : List (String × List String) → String → String → List (String × List String)
  | [], k, v => [(k, [v])]
  | (k2, l) :: rest, k, v =>
    if k2 = k then (k2, l ++ [v]) :: rest
    else (k2, l) :: addToBuckets rest k v

/-- Buckets every version by its release line key. -/
def buckets (vs : List String) : List (String × List String) :=
  vs.foldl (fun bs v => addToBuckets bs (releaseKey v) v) []

/-- Newest member of a group once its list is sorted newest first. -/
def newestOf (g : String × List String) : String := g.2.headD ""

/-- Groups compare by their newest member. -/
def cmpGroup (g1 g2 : String × List String) : Ordering :=
  semverCompare (newestOf g1) (newestOf g2)

/-- Modelled from the spec: the version grouper - bucket by release line
key, sort each bucket newest first, sort the groups by their newest member
descending. -/
def groupVersions (vs : List String) : List (String × List String) :=
  sortDescBy cmpGroup ((buckets vs).map (fun g => (g.1, sortDescBy semverCompare g.2)))

lemma ordThen_swap (a b : Ordering) : (a.then b).swap = a.swap.then b.swap := by
  cases a <;> cases b <;> rfl

lemma cmpNat_swap (a b : Nat) : cmpNat a b = (cmpNat b a).swap := by
  rcases Nat.lt_trichotomy a b with h | h | h
  · have h2 : ¬ b < a := Nat.not_lt.mpr (Nat.le_of_lt h)
    simp [cmpNat, h, h2, Ordering.swap]
  · subst h
    simp [cmpNat, Nat.lt_irrefl, Ordering.swap]
  · have h2 : ¬ a < b := Nat.not_lt.mpr (Nat.le_of_lt h)
    simp [cmpNat, h, h2, Ordering.swap]

lemma cmpOptNat_swap : ∀ a b, cmpOptNat a b = (cmpOptNat b a).swap
  | none, none => rfl
  | none, some _ => rfl
  | some _, none => rfl
  | some a, some b => cmpNat_swap a b

lemma cmpLex_swap (cmp : α → α → Ordering) (hsw : ∀ a b, cmp a b = (cmp b a).swap) :
    ∀ l1 l2, cmpLex cmp l1 l2 = (cmpLex cmp l2 l1).swap
  | [], [] => rfl
  | [], _ :: _ => rfl
  | _ :: _, [] => rfl
  | a :: as, b :: bs => by
    rw [cmpLex, cmpLex, ordThen_swap, ← hsw a b, ← cmpLex_swap cmp hsw as bs]

lemma cmpChar_swap (a b : Char) : cmpChar a b = (cmpChar b a).swap := cmpNat_swap _ _

lemma cmpPreId_swap : ∀ a b, cmpPreId a b = (cmpPreId b a).swap
  | .num a, .num b => cmpNat_swap a b
  | .num _, .alpha _ => rfl
  | .alpha _, .num _ => rfl
  | .alpha a, .alpha b => cmpLex_swap cmpChar cmpChar_swap a b

lemma cmpPre_swap : ∀ a b, cmpPre a b = (cmpPre b a).swap
  | [], [] => rfl
  | [], _ :: _ => rfl
  | _ :: _, [] => rfl
  | a :: as, b :: bs => by
    rw [cmpPre, cmpPre, ordThen_swap, ← cmpPreId_swap a b,
      ← cmpLex_swap cmpPreId cmpPreId_swap as bs]

lemma semverCompare_swap (x y : String) : semverCompare x y = (semverCompare y x).swap := by
  simp only [semverCompare]
  rw [ordThen_swap, ordThen_swap, ordThen_swap, ← cmpOptNat_swap, ← cmpOptNat_swap,
    ← cmpOptNat_swap, ← cmpPre_swap]

lemma perm_insertDescBy (cmp : α → α → Ordering) (a : α) :
    ∀ l, List.Perm (insertDescBy cmp a l) (a :: l)
  | [] => List.Perm.refl _
  | b :: l => by
    rw [insertDescBy]
    by_cases h : cmp a b = .gt
    · rw [if_pos h]
    · rw [if_neg h]
      exact ((perm_insertDescBy cmp a l).cons b).trans (List.Perm.swap a b l)

lemma perm_sortDescBy (cmp : α → α → Ordering) : ∀ l, List.Perm (sortDescBy cmp l) l
  | [] => List.Perm.refl _
  | a :: l => (perm_insertDescBy cmp a _).trans ((perm_sortDescBy cmp l).cons a)

lemma insertDescBy_head? (cmp : α → α → Ordering) (a : α) :
    ∀ l, (insertDescBy cmp a l).head? = some a ∨ (insertDescBy cmp a l).head? = l.head?
  | [] => Or.inl rfl
  | b :: l => by
    rw [insertDescBy]
    by_cases h : cmp a b = .gt
    · rw [if_pos h]
      exact Or.inl rfl
    · rw [if_neg h]
      exact Or.inr rfl

lemma chain'_insertDescBy (cmp : α → α → Ordering)
    (hsw : ∀ a b, cmp a b = (cmp b a).swap) (a : α) :
    ∀ l, List.Chain' (fun x y => cmp x y ≠ .lt) l →
      List.Chain' (fun x y => cmp x y ≠ .lt) (insertDescBy cmp a l)
  | [], _ => List.chain'_singleton a
  | b :: l, hch => by
    rw [insertDescBy]
    by_cases h : cmp a b = .gt
    · rw [if_pos h]
      exact hch.cons (by simp [h])
    · rw [if_neg h]
      have hba : cmp b a ≠ .lt := by
        rw [hsw b a]
        cases hab : cmp a b with
        | lt => decide
        | eq => decide
        | gt => exact absurd hab h
      rw [List.chain'_cons']
      refine ⟨?_, chain'_insertDescBy cmp hsw a l hch.tail⟩
      intro y hy
      rcases insertDescBy_head? cmp a l with hh | hh
      · rw [hh] at hy
        obtain rfl : a = y := by simpa using hy
        exact hba
      · rw [hh] at hy
        cases l with
        | nil => simp at hy
        | cons c l2 =>
          obtain rfl : c = y := by simpa using hy
          exact (List.chain'_cons.mp hch).1

lemma chain'_sortDescBy (cmp : α → α → Ordering)
    (hsw : ∀ a b, cmp a b = (cmp b a).swap) :
    ∀ l, List.Chain' (fun x y => cmp x y ≠ .lt) (sortDescBy cmp l)
  | [] => List.chain'_nil
  | a :: l => chain'_insertDescBy cmp hsw a _ (chain'_sortDescBy cmp hsw l)

/-- All versions held by a bucket list, in order. -/
def allMembers : List (String × List String) → List String
  | [] => []
  | g :: bs => g.2 ++ allMembers bs

lemma addToBuckets_perm : ∀ (bs : List (String × List String)) (k v : String),
    List.Perm (allMembers (addToBuckets bs k v)) (allMembers bs ++ [v])
  | [], k, v => by simp [addToBuckets, allMembers]
  | (k2, l) :: rest, k, v => by
    rw [addToBuckets]
    by_cases h : k2 = k
    · rw [if_pos h]
      show List.Perm ((l ++ [v]) ++ allMembers rest) ((l ++ allMembers rest) ++ [v])
      rw [List.append_assoc, List.append_assoc]
      exact List.Perm.append_left l List.perm_append_comm
    · rw [if_neg h]
      show List.Perm (l ++ allMembers (addToBuckets rest k v)) ((l ++ allMembers rest) ++ [v])
      rw [List.append_assoc]
      exact List.Perm.append_left l (addToBuckets_perm rest k v)

lemma bucketsAux_perm : ∀ (vs : List String) (bs : List (String × List String)),
    List.Perm
      (allMembers (vs.foldl (fun bs v => addToBuckets bs (releaseKey v) v) bs))
      (allMembers bs ++ vs)
  | [], bs => by simp
  | v :: vs, bs => by
    rw [List.foldl_cons]
    have e : (allMembers bs ++ [v]) ++ vs = allMembers bs ++ (v :: vs) := by
      rw [List.append_assoc]
      rfl
    refine (bucketsAux_perm vs _).trans ?_
    rw [← e]
    exact List.Perm.append_right vs (addToBuckets_perm bs _ v)

lemma buckets_perm (vs : List String) : List.Perm (allMembers (buckets vs)) vs := by
  simpa [buckets, allMembers] using bucketsAux_perm vs []

lemma allMembers_map_sort : ∀ bs : List (String × List String),
    List.Perm (allMembers (bs.map (fun g => (g.1, sortDescBy semverCompare g.2))))
      (allMembers bs)
  | [] => List.Perm.refl _
  | g :: bs => List.Perm.append (perm_sortDescBy semverCompare g.2) (allMembers_map_sort bs)

lemma perm_allMembers_of_perm {L1 L2 : List (String × List String)} (h : List.Perm L1 L2) :
    List.Perm (allMembers L1) (allMembers L2) := by
  induction h with
  | nil => exact List.Perm.refl _
  | cons x _ ih => exact List.Perm.append_left x.2 ih
  | swap x y l =>
    show List.Perm (y.2 ++ (x.2 ++ allMembers l)) (x.2 ++ (y.2 ++ allMembers l))
    rw [← List.append_assoc, ← List.append_assoc]
    exact List.Perm.append_right _ List.perm_append_comm
  | trans _ _ ih1 ih2 => exact ih1.trans ih2

lemma groupVersions_perm (vs : List String) :
    List.Perm (allMembers (groupVersions vs)) vs :=
  ((perm_allMembers_of_perm (perm_sortDescBy cmpGroup _)).trans
    (allMembers_map_sort _)).trans (buckets_perm vs)

/-- Every member of every bucket carries the key of its bucket. -/
def keyInv (bs : List (String × List String)) : Prop :=
  ∀ g ∈ bs, ∀ v ∈ g.2, releaseKey v = g.1

lemma addToBuckets_keyInv : ∀ (bs : List (String × List String)) (k v : String),
    keyInv bs → releaseKey v = k → keyInv (addToBuckets bs k v)
  | [], k, v, _, hk => by
    intro g hg x hx
    simp only [addToBuckets, List.mem_singleton] at hg
    subst hg
    simp only [List.mem_singleton] at hx
    subst hx
    exact hk
  | (k2, l) :: rest, k, v, hinv, hk => by
    intro g hg x hx
    rw [addToBuckets] at hg
    by_cases h : k2 = k
    · rw [if_pos h] at hg
      rcases List.mem_cons.mp hg with rfl | hg2
      · rcases List.mem_append.mp hx with hx1 | hx2
        · exact hinv (k2, l) (List.mem_cons_self _ _) x hx1
        · obtain rfl : x = v := by simpa using hx2
          rw [hk, h]
      · exact hinv g (List.mem_cons_of_mem _ hg2) x hx
    · rw [if_neg h] at hg
      rcases List.mem_cons.mp hg with rfl | hg2
      · exact hinv (k2, l) (List.mem_cons_self _ _) x hx
      · exact addToBuckets_keyInv rest k v
          (fun g2 hg3 => hinv g2 (List.mem_cons_of_mem _ hg3)) hk g hg2 x hx

lemma bucketsAux_keyInv : ∀ (vs : List String) (bs : List (String × List String)),
    keyInv bs → keyInv (vs.foldl (fun bs v => addToBuckets bs (releaseKey v) v) bs)
  | [], _, h => h
  | v :: vs, bs, h => by
    rw [List.foldl_cons]
    exact bucketsAux_keyInv vs _ (addToBuckets_keyInv bs _ v h rfl)

lemma buckets_keyInv (vs : List String) : keyInv (buckets vs) :=
  bucketsAux_keyInv vs [] (fun g hg => absurd hg (List.not_mem_nil g))

lemma keyInv_map_sort {bs : List (String × List String)} (h : keyInv bs) :
    keyInv (bs.map (fun g => (g.1, sortDescBy semverCompare g.2))) := by
  intro g hg x hx
  obtain ⟨g0, hg0, rfl⟩ := List.mem_map.mp hg
  exact h g0 hg0 x (((perm_sortDescBy semverCompare g0.2).mem_iff).mp hx)

lemma keyInv_of_perm {L1 L2 : List (String × List String)} (h : List.Perm L1 L2)
    (hinv : keyInv L1) : keyInv L2 :=
  fun g hg => hinv g (h.mem_iff.mpr hg)

lemma groupVersions_keyInv (vs : List String) : keyInv (groupVersions vs) :=
  keyInv_of_perm (perm_sortDescBy cmpGroup _).symm (keyInv_map_sort (buckets_keyInv vs))
lemma mem_allMembers_sublist : ∀ (bs : List (String × List String))
    (g : String × List String), g ∈ bs → List.Sublist g.2 (allMembers bs)
  | [], g, hg => absurd hg (List.not_mem_nil g)
  | b :: bs, g, hg => by
    rcases List.mem_cons.mp hg with rfl | hg2
    · exact List.sublist_append_left g.2 (allMembers bs)
    · exact (mem_allMembers_sublist bs g hg2).trans (List.sublist_append_right b.2 _)

lemma chain'_strengthen (vs : List String)
    (hne : ∀ a ∈ vs, ∀ b ∈ vs, a ≠ b → semverCompare a b ≠ .eq) :
    ∀ l : List String, l.Nodup → (∀ x ∈ l, x ∈ vs) →
      List.Chain' (fun a b => semverCompare a b ≠ .lt) l →
      List.Chain' (fun a b => semverCompare a b = .gt) l
  | [], _, _, _ => List.chain'_nil
  | [a], _, _, _ => List.chain'_singleton a
  | a :: b :: t, hnd, hsub, hch => by
    rw [List.chain'_cons] at hch ⊢
    obtain ⟨hR, h2⟩ := hch
    have hab : a ≠ b := by
      intro he
      refine (List.nodup_cons.mp hnd).1 ?_
      rw [he]
      exact List.mem_cons_self b t
    have hne2 := hne a (hsub a (List.mem_cons_self a _)) b
      (hsub b (List.mem_cons_of_mem a (List.mem_cons_self b t))) hab
    refine ⟨?_, chain'_strengthen vs hne (b :: t) (List.nodup_cons.mp hnd).2
      (fun x hx => hsub x (List.mem_cons_of_mem a hx)) h2⟩
    cases hcab : semverCompare a b with
    | lt => exact absurd hcab hR
    | eq => exact absurd hcab hne2
    | gt => rfl

lemma groupVersions_members_sorted (vs : List String) :
    ∀ g ∈ groupVersions vs, List.Chain' (fun a b => semverCompare a b ≠ .lt) g.2 := by
  intro g hg
  have hg2 : g ∈ (buckets vs).map (fun g => (g.1, sortDescBy semverCompare g.2)) :=
    (perm_sortDescBy cmpGroup _).mem_iff.mp hg
  obtain ⟨g0, _, rfl⟩ := List.mem_map.mp hg2
  exact chain'_sortDescBy semverCompare semverCompare_swap g0.2

lemma groupVersions_groups_sorted (vs : List String) :
    List.Chain' (fun g1 g2 => semverCompare (g1.2.headD "") (g2.2.headD "") ≠ .lt)
      (groupVersions vs) := by
  have h := chain'_sortDescBy cmpGroup
    (fun g1 g2 => semverCompare_swap (newestOf g1) (newestOf g2))
    ((buckets vs).map (fun g => (g.1, sortDescBy semverCompare g.2)))
  simpa [groupVersions, cmpGroup, newestOf] using h


end Grouper

/-- Claim C2: for every duplicate free version list on which the comparator
separates distinct versions, grouping is a full partition (the concatenated
group members are a permutation of the input and each version is counted
once), every member carries the release line key of its group (major for
major at least 1, 0.minor for major 0), each group is strictly newest first
under the comparator, groups are ordered by their newest member descending,
and the 0.x example forms exactly the two groups keyed 0.10 and 0.9. -/
theorem group_versions_spec (vs : List String) (h1 : vs.Nodup)
    (h2 : ∀ a ∈ vs, ∀ b ∈ vs, a ≠ b → Grouper.semverCompare a b ≠ .eq) :
    List.Perm (Grouper.allMembers (Grouper.groupVersions vs)) vs
  ∧ (∀ v ∈ vs, (Grouper.allMembers (Grouper.groupVersions vs)).count v = 1)
  ∧ (∀ g ∈ Grouper.groupVersions vs, ∀ v ∈ g.2, Grouper.releaseKey v = g.1
      ∧ ∀ m, (Grouper.parseSemVer v).major = some m →
          ((1 ≤ m → g.1 = toString m)
           ∧ (m = 0 → g.1 = "0." ++ toString ((Grouper.parseSemVer v).minor.getD 0))))
  ∧ (∀ g ∈ Grouper.groupVersions vs,
      List.Chain' (fun a b => Grouper.semverCompare a b = .gt) g.2)
  ∧ List.Chain' (fun g1 g2 =>
      Grouper.semverCompare (g1.2.headD "") (g2.2.headD "") ≠ .lt)
      (Grouper.groupVersions vs)
  ∧ Grouper.groupVersions ["0.9.0", "0.9.3", "0.10.0", "0.10.1"] =
      [("0.10", ["0.10.1", "0.10.0"]), ("0.9", ["0.9.3", "0.9.0"])] := by
  have hperm := Grouper.groupVersions_perm vs
  refine ⟨hperm, ?_, ?_, ?_, Grouper.groupVersions_groups_sorted vs, by decide⟩
  · intro v hv
    rw [hperm.count_eq]
    exact List.count_eq_one_of_mem h1 hv
  · intro g hg v hv
    have hkey := Grouper.groupVersions_keyInv vs g hg v hv
    refine ⟨hkey, ?_⟩
    intro m hm
    constructor
    · intro hm1
      rw [← hkey]
      simp [Grouper.releaseKey, hm, hm1]
    · intro hm0
      rw [← hkey]
      subst hm0
      simp [Grouper.releaseKey, hm]
  · intro g hg
    have hall : (Grouper.allMembers (Grouper.groupVersions vs)).Nodup :=
      (hperm.nodup_iff).mpr h1
    have hnd : g.2.Nodup :=
      List.Nodup.sublist (Grouper.mem_allMembers_sublist _ g hg) hall
    have hsub : ∀ x ∈ g.2, x ∈ vs := fun x hx =>
      hperm.mem_iff.mp ((Grouper.mem_allMembers_sublist _ g hg).subset hx)
    exact Grouper.chain'_strengthen vs h2 g.2 hnd hsub
      (Grouper.groupVersions_members_sorted vs g hg)

/-- Witness for group_versions_spec on the 0.x example of the spec. -/
theorem group_versions_spec_w :
    Grouper.groupVersions ["0.9.0", "0.9.3", "0.10.0", "0.10.1"] =
      [("0.10", ["0.10.1", "0.10.0"]), ("0.9", ["0.9.3", "0.9.0"])]
  ∧ (Grouper.allMembers
      (Grouper.groupVersions ["0.9.0", "0.9.3", "0.10.0", "0.10.1"])).count "0.9.3" = 1 :=
  ⟨(group_versions_spec ["0.9.0", "0.9.3", "0.10.0", "0.10.1"] (by decide)
      (by decide)).2.2.2.2.2,
   (group_versions_spec ["0.9.0", "0.9.3", "0.10.0", "0.10.1"] (by decide)
      (by decide)).2.1 "0.9.3" (by decide)⟩
